import Mathlib

/-! Verification development for the Phase 4 Jacobian controller
(src/phase4_jacobian_controller.py): a shallow embedding of its
linear-algebra kernel, 3x3 Cramer solve, damped least-squares step,
velocity limiter, trajectory generator, finite-difference Jacobian
estimation, and the control-loop caching and shutdown logic, together
with theorems settling the specified properties. Exact rational or real
arithmetic stands in for the floating-point arithmetic of the source. -/

/-- Matrix multiplication, from mat_mult in the source. Dimensions are
carried by the indexed function types, so the DimensionMismatch branch of
the source is unrepresentable here. -/
def mat_mult {m n p : ℕ} (A : Fin m → Fin n → ℚ) (B : Fin n → Fin p → ℚ) :
    Fin m → Fin p → ℚ :=
  fun i j => ∑ k, A i k * B k j

/-- Matrix transpose, from mat_transpose in the source. -/
def mat_transpose {m n : ℕ} (A : Fin m → Fin n → ℚ) : Fin n → Fin m → ℚ :=
  fun i j => A j i

/-- Matrix addition, from mat_add in the source. -/
def mat_add {m n : ℕ} (A B : Fin m → Fin n → ℚ) : Fin m → Fin n → ℚ :=
  fun i j => A i j + B i j

/-- Matrix scaling, from mat_scale in the source. -/
def mat_scale {m n : ℕ} (A : Fin m → Fin n → ℚ) (c : ℚ) : Fin m → Fin n → ℚ :=
  fun i j => c * A i j

/-- Identity matrix, from mat_eye in the source. -/
def mat_eye (n : ℕ) : Fin n → Fin n → ℚ :=
  fun i j => if i = j then 1 else 0

/-- Application of a 3x3 matrix to a 3-vector, used to state that the
solver output actually solves the linear system. -/
def mat_vec3 (A : Fin 3 → Fin 3 → ℚ) (x : Fin 3 → ℚ) : Fin 3 → ℚ :=
  fun i => ∑ j, A i j * x j

/-- Determinant expansion computed at the top of solve_3x3 in the source. -/
def det3 (A : Fin 3 → Fin 3 → ℚ) : ℚ :=
  A 0 0 * (A 1 1 * A 2 2 - A 1 2 * A 2 1) -
  A 0 1 * (A 1 0 * A 2 2 - A 1 2 * A 2 0) +
  A 0 2 * (A 1 0 * A 2 1 - A 1 1 * A 2 0)

/-- Numerator determinant det_x of solve_3x3 in the source. -/
def det_x (A : Fin 3 → Fin 3 → ℚ) (b : Fin 3 → ℚ) : ℚ :=
  b 0 * (A 1 1 * A 2 2 - A 1 2 * A 2 1) -
  A 0 1 * (b 1 * A 2 2 - A 1 2 * b 2) +
  A 0 2 * (b 1 * A 2 1 - A 1 1 * b 2)

/-- Numerator determinant det_y of solve_3x3 in the source. -/
def det_y (A : Fin 3 → Fin 3 → ℚ) (b : Fin 3 → ℚ) : ℚ :=
  A 0 0 * (b 1 * A 2 2 - A 1 2 * b 2) -
  b 0 * (A 1 0 * A 2 2 - A 1 2 * A 2 0) +
  A 0 2 * (A 1 0 * b 2 - b 1 * A 2 0)

/-- Numerator determinant det_z of solve_3x3 in the source. -/
def det_z (A : Fin 3 → Fin 3 → ℚ) (b : Fin 3 → ℚ) : ℚ :=
  A 0 0 * (A 1 1 * b 2 - b 1 * A 2 1) -
  A 0 1 * (A 1 0 * b 2 - b 1 * A 2 0) +
  b 0 * (A 1 0 * A 2 1 - A 1 1 * A 2 0)

/-- solve_3x3 from the source: Cramer rule with the singular guard
abs det < 1e-10; the raised ValueError is modelled as none. -/
def solve_3x3 (A : Fin 3 → Fin 3 → ℚ) (b : Fin 3 → ℚ) : Option (Fin 3 → ℚ) :=
  if |det3 A| < 1 / 10000000000 then none
  else some ![det_x A b / det3 A, det_y A b / det3 A, det_z A b / det3 A]

lemma solve_3x3_none_iff (A : Fin 3 → Fin 3 → ℚ) (b : Fin 3 → ℚ) :
    solve_3x3 A b = none ↔ |det3 A| < 1 / 10000000000 := by
  unfold solve_3x3
  split <;> simp_all

lemma solve_3x3_some_form (A : Fin 3 → Fin 3 → ℚ) (b : Fin 3 → ℚ)
    (x : Fin 3 → ℚ) (hx : solve_3x3 A b = some x) :
    det3 A ≠ 0 ∧
      x = ![det_x A b / det3 A, det_y A b / det3 A, det_z A b / det3 A] := by
  unfold solve_3x3 at hx
  split at hx
  · exact absurd hx (by simp)
  · refine ⟨fun h0 => ?_, (Option.some_inj.1 hx).symm⟩
    · rename_i hlt
      rw [h0] at hlt
      exact hlt (by norm_num)

lemma cramer_solves (A : Fin 3 → Fin 3 → ℚ) (b : Fin 3 → ℚ)
    (hd : det3 A ≠ 0) :
    mat_vec3 A ![det_x A b / det3 A, det_y A b / det3 A, det_z A b / det3 A]
      = b := by
  have e0 :
      mat_vec3 A ![det_x A b / det3 A, det_y A b / det3 A, det_z A b / det3 A] 0
        = b 0 := by
    simp only [mat_vec3, Fin.sum_univ_three]
    simp
    field_simp
    simp only [det3, det_x, det_y, det_z]
    ring
  have e1 :
      mat_vec3 A ![det_x A b / det3 A, det_y A b / det3 A, det_z A b / det3 A] 1
        = b 1 := by
    simp only [mat_vec3, Fin.sum_univ_three]
    simp
    field_simp
    simp only [det3, det_x, det_y, det_z]
    ring
  have e2 :
      mat_vec3 A ![det_x A b / det3 A, det_y A b / det3 A, det_z A b / det3 A] 2
        = b 2 := by
    simp only [mat_vec3, Fin.sum_univ_three]
    simp
    field_simp
    simp only [det3, det_x, det_y, det_z]
    ring
  funext i
  fin_cases i
  · exact e0
  · exact e1
  · exact e2

lemma cramer_unique (A : Fin 3 → Fin 3 → ℚ) (b : Fin 3 → ℚ) (y : Fin 3 → ℚ)
    (hd : det3 A ≠ 0) (hy : mat_vec3 A y = b) :
    y = ![det_x A b / det3 A, det_y A b / det3 A, det_z A b / det3 A] := by
  have h0 : A 0 0 * y 0 + A 0 1 * y 1 + A 0 2 * y 2 = b 0 := by
    have := congrFun hy 0
    simpa [mat_vec3, Fin.sum_univ_three] using this
  have h1 : A 1 0 * y 0 + A 1 1 * y 1 + A 1 2 * y 2 = b 1 := by
    have := congrFun hy 1
    simpa [mat_vec3, Fin.sum_univ_three] using this
  have h2 : A 2 0 * y 0 + A 2 1 * y 1 + A 2 2 * y 2 = b 2 := by
    have := congrFun hy 2
    simpa [mat_vec3, Fin.sum_univ_three] using this
  have e0 : y 0 = det_x A b / det3 A := by
    rw [eq_div_iff hd]
    simp only [det3, det_x]
    rw [← h0, ← h1, ← h2]
    ring
  have e1 : y 1 = det_y A b / det3 A := by
    rw [eq_div_iff hd]
    simp only [det3, det_y]
    rw [← h0, ← h1, ← h2]
    ring
  have e2 : y 2 = det_z A b / det3 A := by
    rw [eq_div_iff hd]
    simp only [det3, det_z]
    rw [← h0, ← h1, ← h2]
    ring
  funext i
  fin_cases i
  · simpa using e0
  · simpa using e1
  · simpa using e2

/-- C4: solve_3x3 reports the singular-matrix failure exactly when
abs det < 1e-10, and otherwise returns, by Cramer rule, the unique exact
solution of A x = b over the rationals. -/
theorem solve_3x3_spec (A : Fin 3 → Fin 3 → ℚ) (b : Fin 3 → ℚ) :
    (solve_3x3 A b = none ↔ |det3 A| < 1 / 10000000000) ∧
    ∀ x, solve_3x3 A b = some x →
      mat_vec3 A x = b ∧ ∀ y, mat_vec3 A y = b → y = x := by
  refine ⟨solve_3x3_none_iff A b, ?_⟩
  intro x hx
  obtain ⟨hd, hform⟩ := solve_3x3_some_form A b x hx
  subst hform
  exact ⟨cramer_solves A b hd, fun y hy => cramer_unique A b y hd hy⟩

/-- Closed instance of solve_3x3_spec on the identity system with
b = (1, 2, 3): the hypothesis of the solution branch is discharged by
computation. -/
theorem solve_3x3_spec_witness :
    mat_vec3 (mat_eye 3) ![1, 2, 3] = ![1, 2, 3] :=
  ((solve_3x3_spec (mat_eye 3) ![1, 2, 3]).2 ![1, 2, 3] (by
    rw [solve_3x3, if_neg (by norm_num +decide [det3, mat_eye])]
    refine congrArg some (funext fun i => ?_)
    fin_cases i <;>
      norm_num +decide [det3, det_x, det_y, det_z, mat_eye])).1

/-- Damped 3x3 system matrix J Jt + lambda^2 I3, formed in the control
loop body of main before calling solve_3x3. -/
def dls_damped (J : Fin 3 → Fin 7 → ℚ) (lam : ℚ) : Fin 3 → Fin 3 → ℚ :=
  mat_add (mat_mult J (mat_transpose J)) (mat_scale (mat_eye 3) (lam ^ 2))

/-- Damped least-squares step from the control loop body of main:
dq = Jt applied to the solve_3x3 solution of
(J Jt + lambda^2 I3) x = dx, flattened from the 7x1 product; the
propagated singular-matrix failure is modelled as none. -/
def dls_solve (J : Fin 3 → Fin 7 → ℚ) (dx : Fin 3 → ℚ) (lam : ℚ) :
    Option (Fin 7 → ℚ) :=
  match solve_3x3 (dls_damped J lam) dx with
  | none => none
  | some dx_solved =>
    some (fun i => mat_mult (mat_transpose J) (fun k (_ : Fin 1) => dx_solved k) i 0)

/-- Scenario Jacobian of the spec: first three columns the 3x3 identity,
remaining four columns zero. -/
def J_scenario : Fin 3 → Fin 7 → ℚ :=
  fun i j => if (j : ℕ) = (i : ℕ) then 1 else 0

/-- All-zero 3x7 Jacobian for the degenerate scenario. -/
def J_zero : Fin 3 → Fin 7 → ℚ := fun _ _ => 0

lemma dls_solve_eq_some (J : Fin 3 → Fin 7 → ℚ) (dx : Fin 3 → ℚ) (lam : ℚ)
    (x : Fin 3 → ℚ) (hx : solve_3x3 (dls_damped J lam) dx = some x) :
    dls_solve J dx lam = some (fun i => ∑ k, J k i * x k) := by
  unfold dls_solve
  rw [hx]
  refine congrArg some (funext fun i => ?_)
  simp [mat_mult, mat_transpose]

lemma solve_3x3_isSome (A : Fin 3 → Fin 3 → ℚ) (b : Fin 3 → ℚ)
    (h : 1 / 10000000000 ≤ |det3 A|) :
    solve_3x3 A b
      = some ![det_x A b / det3 A, det_y A b / det3 A, det_z A b / det3 A] := by
  rw [solve_3x3, if_neg (not_lt.2 h)]

/-- C3: whenever the damped 3x3 system passes the singular check of
solve_3x3, the damped least-squares step returns Jt applied to the unique
exact solution x of (J Jt + lambda^2 I3) x = dx; and on the scenario
Jacobian (first three columns the identity) with dx = (1/500, 0, 0) and
lambda = 0 the result is (1/500, 0, 0, 0, 0, 0, 0), that is
(0.002, 0, 0, 0, 0, 0, 0). -/
theorem dls_solve_spec (J : Fin 3 → Fin 7 → ℚ) (dx : Fin 3 → ℚ) (lam : ℚ)
    (_hlam : 0 ≤ lam)
    (h : 1 / 10000000000 ≤ |det3 (dls_damped J lam)|) :
    (∃ x, mat_vec3 (dls_damped J lam) x = dx ∧
        (∀ y, mat_vec3 (dls_damped J lam) y = dx → y = x) ∧
        dls_solve J dx lam = some (fun i => ∑ k, J k i * x k)) ∧
    dls_solve J_scenario ![1/500, 0, 0] 0
      = some ![1/500, 0, 0, 0, 0, 0, 0] := by
  have hd : det3 (dls_damped J lam) ≠ 0 := by
    intro h0
    rw [h0] at h
    norm_num at h
  constructor
  · refine ⟨![det_x (dls_damped J lam) dx / det3 (dls_damped J lam),
        det_y (dls_damped J lam) dx / det3 (dls_damped J lam),
        det_z (dls_damped J lam) dx / det3 (dls_damped J lam)], ?_, ?_, ?_⟩
    · exact cramer_solves (dls_damped J lam) dx hd
    · exact fun y hy => cramer_unique (dls_damped J lam) dx y hd hy
    · exact dls_solve_eq_some J dx lam _ (solve_3x3_isSome (dls_damped J lam) dx h)
  · have hsolve : solve_3x3 (dls_damped J_scenario 0) ![1/500, 0, 0]
        = some ![1/500, 0, 0] := by
      rw [solve_3x3, if_neg (by
        norm_num +decide [det3, dls_damped, mat_add, mat_mult, mat_scale,
          mat_eye, mat_transpose, J_scenario, Fin.sum_univ_seven])]
      refine congrArg some (funext fun i => ?_)
      fin_cases i <;>
        norm_num +decide [det3, det_x, det_y, det_z, dls_damped, mat_add,
          mat_mult, mat_scale, mat_eye, mat_transpose, J_scenario,
          Fin.sum_univ_seven]
    rw [dls_solve_eq_some J_scenario ![1/500, 0, 0] 0 ![1/500, 0, 0] hsolve]
    refine congrArg some (funext fun i => ?_)
    fin_cases i <;>
      norm_num +decide [J_scenario, Fin.sum_univ_three]

/-- Closed instance of dls_solve_spec at the scenario Jacobian with
lambda = 0 and dx = (1/500, 0, 0): both hypotheses are discharged by
computation. -/
theorem dls_solve_spec_witness :
    dls_solve J_scenario ![1/500, 0, 0] 0
      = some ![1/500, 0, 0, 0, 0, 0, 0] :=
  (dls_solve_spec J_scenario ![1/500, 0, 0] 0 le_rfl (by
    norm_num +decide [det3, dls_damped, mat_add, mat_mult, mat_scale,
      mat_eye, mat_transpose, J_scenario, Fin.sum_univ_seven])).2

/-- C6: with the all-zero Jacobian, lambda = 0 makes the damped system the
zero matrix, so the solve reports the singular failure; lambda = 1/10
gives determinant 1/1000000, above the 1/10000000000 threshold, and the
resulting dq is the all-zero 7-vector, for every right-hand side dx. -/
theorem dls_solve_degenerate (dx : Fin 3 → ℚ) :
    dls_solve J_zero dx 0 = none ∧
    dls_solve J_zero dx (1 / 10) = some (fun _ => 0) := by
  constructor
  · unfold dls_solve
    rw [solve_3x3, if_pos (by
      norm_num +decide [det3, dls_damped, mat_add, mat_mult, mat_scale,
        mat_eye, mat_transpose, J_zero, Fin.sum_univ_seven])]
  · have hsolve : solve_3x3 (dls_damped J_zero (1 / 10)) dx
        = some ![det_x (dls_damped J_zero (1 / 10)) dx
              / det3 (dls_damped J_zero (1 / 10)),
            det_y (dls_damped J_zero (1 / 10)) dx
              / det3 (dls_damped J_zero (1 / 10)),
            det_z (dls_damped J_zero (1 / 10)) dx
              / det3 (dls_damped J_zero (1 / 10))] := by
      refine solve_3x3_isSome _ dx ?_
      have hdet : det3 (dls_damped J_zero (1 / 10)) = 1 / 1000000 := by
        norm_num +decide [det3, dls_damped, mat_add, mat_mult, mat_scale,
          mat_eye, mat_transpose, J_zero, Fin.sum_univ_seven]
      rw [hdet, abs_of_pos (by norm_num)]
      norm_num
    rw [dls_solve_eq_some J_zero dx (1 / 10) _ hsolve]
    refine congrArg some (funext fun i => ?_)
    simp [J_zero]

/-- Euclidean norm, from vec_norm in the source, over exact reals. -/
noncomputable def vec_norm {n : ℕ} (v : Fin n → ℝ) : ℝ :=
  Real.sqrt (∑ i, v i * v i)

/-- Per-component clamp max(-maxDq, min(maxDq, x)) from the control loop
body of main. -/
def clamp_dq (maxDq x : ℝ) : ℝ :=
  max (-maxDq) (min maxDq x)

/-- Velocity limiter from the control loop body of main: clamp every
component into the per-joint band first, then, when the Euclidean norm of
the clamped vector exceeds maxDq, rescale every component by
maxDq / norm. -/
noncomputable def velocity_limit (dq : Fin 7 → ℝ) (maxDq : ℝ) : Fin 7 → ℝ :=
  if maxDq < vec_norm (fun i => clamp_dq maxDq (dq i)) then
    fun i => maxDq / vec_norm (fun j => clamp_dq maxDq (dq j)) * clamp_dq maxDq (dq i)
  else fun i => clamp_dq maxDq (dq i)

lemma clamp_dq_abs_le (maxDq x : ℝ) (h : 0 < maxDq) :
    |clamp_dq maxDq x| ≤ maxDq := by
  rw [abs_le, clamp_dq]
  exact ⟨le_max_left _ _, max_le (by linarith) (min_le_left _ _)⟩

lemma clamp_dq_abs_le_abs (maxDq x : ℝ) (h : 0 < maxDq) :
    |clamp_dq maxDq x| ≤ |x| := by
  unfold clamp_dq
  rcases le_total x (-maxDq) with h1 | h1
  · rw [min_eq_right (by linarith), max_eq_left h1, abs_neg,
      abs_of_pos h, abs_of_nonpos (by linarith)]
    linarith
  · rcases le_total x maxDq with h2 | h2
    · rw [min_eq_right h2, max_eq_right h1]
    · rw [min_eq_left h2, max_eq_right (by linarith),
        abs_of_pos h, abs_of_pos (by linarith)]
      linarith

lemma clamp_dq_sign (maxDq x : ℝ) (h : 0 < maxDq) :
    0 ≤ clamp_dq maxDq x * x := by
  unfold clamp_dq
  rcases le_total x (-maxDq) with h1 | h1
  · rw [min_eq_right (by linarith), max_eq_left h1]
    nlinarith
  · rcases le_total x maxDq with h2 | h2
    · rw [min_eq_right h2, max_eq_right h1]
      exact mul_self_nonneg x
    · rw [min_eq_left h2, max_eq_right (by linarith)]
      nlinarith

lemma vec_norm_smul {n : ℕ} (s : ℝ) (v : Fin n → ℝ) :
    vec_norm (fun i => s * v i) = |s| * vec_norm v := by
  unfold vec_norm
  rw [show (∑ i, (s * v i) * (s * v i)) = s ^ 2 * ∑ i, v i * v i by
        rw [Finset.mul_sum]
        exact Finset.sum_congr rfl fun i _ => by ring,
    Real.sqrt_mul (sq_nonneg s), Real.sqrt_sq_eq_abs]

/-- C5: for every dq and maxDq greater than 0, the limiter output obeys
both bounds of the spec: each component magnitude is at most maxDq and
the Euclidean norm is at most maxDq (the clamp runs first and the norm
rescale second, so the bounds compose). -/
theorem velocity_limit_bounds (dq : Fin 7 → ℝ) (maxDq : ℝ) (h : 0 < maxDq) :
    (∀ i, |velocity_limit dq maxDq i| ≤ maxDq) ∧
    vec_norm (velocity_limit dq maxDq) ≤ maxDq := by
  unfold velocity_limit
  by_cases hN : maxDq < vec_norm (fun i => clamp_dq maxDq (dq i))
  · rw [if_pos hN]
    have hN0 : 0 < vec_norm (fun i => clamp_dq maxDq (dq i)) := lt_trans h hN
    have hs1 : maxDq / vec_norm (fun i => clamp_dq maxDq (dq i)) ≤ 1 :=
      (div_le_one hN0).2 (le_of_lt hN)
    have hs0 : 0 ≤ maxDq / vec_norm (fun i => clamp_dq maxDq (dq i)) :=
      div_nonneg h.le hN0.le
    constructor
    · intro i
      rw [abs_mul, abs_of_nonneg hs0]
      calc maxDq / vec_norm (fun j => clamp_dq maxDq (dq j))
            * |clamp_dq maxDq (dq i)|
          ≤ 1 * |clamp_dq maxDq (dq i)| :=
            mul_le_mul_of_nonneg_right hs1 (abs_nonneg _)
        _ = |clamp_dq maxDq (dq i)| := one_mul _
        _ ≤ maxDq := clamp_dq_abs_le maxDq (dq i) h
    · rw [vec_norm_smul, abs_of_nonneg hs0,
        div_mul_cancel₀ _ (ne_of_gt hN0)]
  · rw [if_neg hN]
    exact ⟨fun i => clamp_dq_abs_le maxDq (dq i) h, not_lt.1 hN⟩

/-- Closed instance of velocity_limit_bounds at the zero vector with
maxDq = 1. -/
theorem velocity_limit_bounds_witness :
    (0:ℝ) < 1 ∧
    ((∀ i, |velocity_limit (fun _ => 0) 1 i| ≤ 1) ∧
      vec_norm (velocity_limit (fun _ => 0) 1) ≤ 1) :=
  ⟨by norm_num, velocity_limit_bounds (fun _ => 0) 1 (by norm_num)⟩

/-- C9: the limiter is componentwise contractive and never flips the sign
of a component, over exact real arithmetic. -/
theorem velocity_limit_contractive (dq : Fin 7 → ℝ) (maxDq : ℝ)
    (h : 0 < maxDq) (i : Fin 7) :
    |velocity_limit dq maxDq i| ≤ |dq i| ∧
    0 ≤ velocity_limit dq maxDq i * dq i := by
  unfold velocity_limit
  by_cases hN : maxDq < vec_norm (fun i => clamp_dq maxDq (dq i))
  · rw [if_pos hN]
    have hN0 : 0 < vec_norm (fun i => clamp_dq maxDq (dq i)) := lt_trans h hN
    have hs1 : maxDq / vec_norm (fun i => clamp_dq maxDq (dq i)) ≤ 1 :=
      (div_le_one hN0).2 (le_of_lt hN)
    have hs0 : 0 ≤ maxDq / vec_norm (fun i => clamp_dq maxDq (dq i)) :=
      div_nonneg h.le hN0.le
    constructor
    · rw [abs_mul, abs_of_nonneg hs0]
      calc maxDq / vec_norm (fun j => clamp_dq maxDq (dq j))
            * |clamp_dq maxDq (dq i)|
          ≤ 1 * |clamp_dq maxDq (dq i)| :=
            mul_le_mul_of_nonneg_right hs1 (abs_nonneg _)
        _ = |clamp_dq maxDq (dq i)| := one_mul _
        _ ≤ |dq i| := clamp_dq_abs_le_abs maxDq (dq i) h
    · rw [mul_assoc]
      exact mul_nonneg hs0 (clamp_dq_sign maxDq (dq i) h)
  · rw [if_neg hN]
    exact ⟨clamp_dq_abs_le_abs maxDq (dq i) h, clamp_dq_sign maxDq (dq i) h⟩

/-- Closed instance of velocity_limit_contractive at the zero vector with
maxDq = 1 and joint index 0. -/
theorem velocity_limit_contractive_witness :
    (0:ℝ) < 1 ∧
    (|velocity_limit (fun _ => 0) 1 0| ≤ |(fun _ : Fin 7 => (0:ℝ)) 0| ∧
      0 ≤ velocity_limit (fun _ => 0) 1 0 * (fun _ : Fin 7 => (0:ℝ)) 0) :=
  ⟨by norm_num, velocity_limit_contractive (fun _ => 0) 1 (by norm_num) 0⟩

/-- Desired Cartesian step from the control loop body of main:
dx = (S cos(2 pi 0.1 t), S sin(2 pi 0.1 t), 0) with S the configured
step size (STEP_SIZE = 0.002 in the source). -/
noncomputable def trajectory (S t : ℝ) : Fin 3 → ℝ :=
  ![S * Real.cos (2 * Real.pi * 0.1 * t),
    S * Real.sin (2 * Real.pi * 0.1 * t),
    0]

/-- C7: at the configured step size S = 0.002, the trajectory is periodic
with period 10 seconds and every component magnitude is at most S; it is
a pure function of t, so determinism holds by construction. -/
theorem trajectory_spec (t : ℝ) (_ht : 0 ≤ t) :
    trajectory 0.002 (t + 10) = trajectory 0.002 t ∧
    ∀ i, |trajectory 0.002 t i| ≤ 0.002 := by
  constructor
  · have harg : 2 * Real.pi * 0.1 * (t + 10)
        = 2 * Real.pi * 0.1 * t + 2 * Real.pi := by ring
    unfold trajectory
    rw [harg, Real.cos_add_two_pi, Real.sin_add_two_pi]
  · intro i
    have hcos : |Real.cos (2 * Real.pi * 0.1 * t)| ≤ 1 := Real.abs_cos_le_one _
    have hsin : |Real.sin (2 * Real.pi * 0.1 * t)| ≤ 1 := Real.abs_sin_le_one _
    fin_cases i
    · show |(0.002:ℝ) * Real.cos (2 * Real.pi * 0.1 * t)| ≤ 0.002
      rw [abs_mul, abs_of_pos (by norm_num : (0:ℝ) < 0.002)]
      nlinarith
    · show |(0.002:ℝ) * Real.sin (2 * Real.pi * 0.1 * t)| ≤ 0.002
      rw [abs_mul, abs_of_pos (by norm_num : (0:ℝ) < 0.002)]
      nlinarith
    · show |(0:ℝ)| ≤ 0.002
      norm_num

/-- Closed instance of trajectory_spec at t = 0. -/
theorem trajectory_spec_witness :
    (0:ℝ) ≤ 0 ∧
    (trajectory 0.002 (0 + 10) = trajectory 0.002 0 ∧
      ∀ i, |trajectory 0.002 0 i| ≤ 0.002) :=
  ⟨le_refl 0, trajectory_spec 0 (le_refl 0)⟩

/-- Perturbed configuration: q with joint i increased by eps (q_pert in
the Jacobian refresh block of main). -/
def perturb (q : Fin 7 → ℚ) (i : Fin 7) (eps : ℚ) : Fin 7 → ℚ :=
  fun j => if j = i then q j + eps else q j

/-- One probe of the finite-difference loop in main: command the
perturbed configuration, read the tip position through the
forward-kinematics oracle, and on success restore q before returning the
column; on a failed read the error propagates while the perturbed
configuration is still the commanded one. The first component is the
commanded joint configuration when the probe ends. -/
def probe_column (getPos : (Fin 7 → ℚ) → Option (Fin 3 → ℚ)) (q : Fin 7 → ℚ)
    (p : Fin 3 → ℚ) (eps : ℚ) (i : Fin 7) :
    (Fin 7 → ℚ) × Option (Fin 3 → ℚ) :=
  match getPos (perturb q i eps) with
  | none => (perturb q i eps, none)
  | some p_pert => (q, some (fun k => (p_pert k - p k) / eps))

/-- Column-by-column finite-difference loop of main over the listed
joints, threading the commanded configuration and aborting on the first
failed probe. -/
def estimate_cols (getPos : (Fin 7 → ℚ) → Option (Fin 3 → ℚ)) (q : Fin 7 → ℚ)
    (p : Fin 3 → ℚ) (eps : ℚ) :
    List (Fin 7) → (Fin 7 → ℚ) × Option (List (Fin 3 → ℚ))
  | [] => (q, some [])
  | i :: rest =>
    match probe_column getPos q p eps i with
    | (cfg, none) => (cfg, none)
    | (_, some col) =>
      match estimate_cols getPos q p eps rest with
      | (cfg, none) => (cfg, none)
      | (cfg, some cols) => (cfg, some (col :: cols))

/-- Jacobian estimation over the seven joints, from the refresh block of
main: base configuration q, base tip position p, perturbation eps. -/
def jacobian_estimate (getPos : (Fin 7 → ℚ) → Option (Fin 3 → ℚ))
    (q : Fin 7 → ℚ) (p : Fin 3 → ℚ) (eps : ℚ) :
    (Fin 7 → ℚ) × Option (List (Fin 3 → ℚ)) :=
  estimate_cols getPos q p eps (List.finRange 7)

lemma estimate_cols_spec (getPos : (Fin 7 → ℚ) → Option (Fin 3 → ℚ))
    (q : Fin 7 → ℚ) (p : Fin 3 → ℚ) (eps : ℚ) (l : List (Fin 7)) :
    ((estimate_cols getPos q p eps l).2.isSome = true →
      (estimate_cols getPos q p eps l).1 = q) ∧
    ((estimate_cols getPos q p eps l).2 = none →
      ∃ i ∈ l, (estimate_cols getPos q p eps l).1 = perturb q i eps) := by
  induction l with
  | nil => simp [estimate_cols]
  | cons i rest ih =>
    cases hp : getPos (perturb q i eps) with
    | none =>
      constructor
      · intro hs
        rw [estimate_cols, probe_column, hp] at hs
        simp at hs
      · intro _
        refine ⟨i, List.mem_cons_self i rest, ?_⟩
        rw [estimate_cols, probe_column, hp]
    | some pp =>
      cases hr : (estimate_cols getPos q p eps rest).2 with
      | none =>
        constructor
        · intro hs
          rw [estimate_cols, probe_column, hp] at hs
          rcases hrr : estimate_cols getPos q p eps rest with ⟨cfg, res⟩
          rw [hrr] at hs hr
          simp at hr
          rw [hr] at hs
          simp at hs
        · intro _
          obtain ⟨j, hj, hcfg⟩ := ih.2 hr
          refine ⟨j, List.mem_cons_of_mem i hj, ?_⟩
          rw [estimate_cols, probe_column, hp]
          rcases hrr : estimate_cols getPos q p eps rest with ⟨cfg, res⟩
          rw [hrr] at hr hcfg
          simp at hr hcfg
          rw [hr]
          simpa using hcfg
      | some cols =>
        constructor
        · intro _
          rw [estimate_cols, probe_column, hp]
          rcases hrr : estimate_cols getPos q p eps rest with ⟨cfg, res⟩
          rw [hrr] at hr
          simp at hr
          rw [hr]
          have := ih.1
          rw [hrr, hr] at this
          simpa using this (by simp)
        · intro hn
          rw [estimate_cols, probe_column, hp] at hn
          rcases hrr : estimate_cols getPos q p eps rest with ⟨cfg, res⟩
          rw [hrr] at hn hr
          simp at hr
          rw [hr] at hn
          simp at hn

/-- C1 (amended): when every probe succeeds, the Jacobian estimation ends
with the original configuration q commanded (each column restores q); when
a probe fails, the configuration at the moment the error propagates is the
perturbed configuration of the failing column, not q. -/
theorem jacobian_estimate_restore (getPos : (Fin 7 → ℚ) → Option (Fin 3 → ℚ))
    (q : Fin 7 → ℚ) (p : Fin 3 → ℚ) (eps : ℚ) :
    ((jacobian_estimate getPos q p eps).2.isSome = true →
      (jacobian_estimate getPos q p eps).1 = q) ∧
    ((jacobian_estimate getPos q p eps).2 = none →
      ∃ i, (jacobian_estimate getPos q p eps).1 = perturb q i eps) := by
  have h := estimate_cols_spec getPos q p eps (List.finRange 7)
  exact ⟨h.1, fun hn => (h.2 hn).elim fun i hi => ⟨i, hi.2⟩⟩

/-- Oracle that answers every forward-kinematics probe with the origin. -/
def ok_oracle : (Fin 7 → ℚ) → Option (Fin 3 → ℚ) := fun _ => some (fun _ => 0)

/-- Oracle whose every probe fails, modelling a collaborator error during
the Jacobian estimation. -/
def fail_oracle : (Fin 7 → ℚ) → Option (Fin 3 → ℚ) := fun _ => none

/-- Closed instance of jacobian_estimate_restore with an all-succeeding
oracle at q = 0, eps = 1. -/
theorem jacobian_estimate_restore_witness :
    (jacobian_estimate ok_oracle (fun _ => 0) (fun _ => 0) 1).2.isSome = true ∧
    (jacobian_estimate ok_oracle (fun _ => 0) (fun _ => 0) 1).1 = fun _ => 0 :=
  ⟨by simp [jacobian_estimate, List.finRange, estimate_cols, probe_column,
      ok_oracle],
    (jacobian_estimate_restore ok_oracle (fun _ => 0) (fun _ => 0) 1).1
      (by simp [jacobian_estimate, List.finRange, estimate_cols, probe_column,
        ok_oracle])⟩

/-- C1 as stated is false on the code: with a failing probe the original
configuration is not restored before the error propagates; at q = 0 and
eps = 1 with an oracle whose first probe fails, the commanded
configuration at the end is the perturbed one, which differs from q. -/
theorem jacobian_estimate_restore_cex :
    (jacobian_estimate fail_oracle (fun _ => 0) (fun _ => 0) 1).2 = none ∧
    (jacobian_estimate fail_oracle (fun _ => 0) (fun _ => 0) 1).1 ≠
      (fun _ => 0) := by
  constructor
  · simp [jacobian_estimate, List.finRange, estimate_cols, probe_column,
      fail_oracle]
  · intro h
    have h0 := congrFun h 0
    simp [jacobian_estimate, List.finRange, estimate_cols, probe_column,
      fail_oracle, perturb] at h0

/-- State of the control loop relevant to Jacobian caching and the
per-tick statistics: the step counter, whether a cached Jacobian exists
(J is None before the first tick in the source), the list of tick numbers
at which the Jacobian was recomputed, and the number of recorded dq-norm
samples. -/
structure LoopState where
  stepCounter : ℕ
  hasJ : Bool
  recomputes : List ℕ
  samples : ℕ
deriving DecidableEq

/-- Loop state before the first tick: counter 0, no cached Jacobian, no
recomputes, no samples. -/
def init_state : LoopState := ⟨0, false, [], 0⟩

/-- One control tick of main: the counter is incremented first, then the
Jacobian is recomputed when none is cached or the incremented counter is
a multiple of the refresh period; exactly one dq-norm sample is recorded
per tick. -/
def control_tick (period : ℕ) (s : LoopState) : LoopState :=
  if s.hasJ = false ∨ (s.stepCounter + 1) % period = 0 then
    ⟨s.stepCounter + 1, true, s.recomputes ++ [s.stepCounter + 1], s.samples + 1⟩
  else
    ⟨s.stepCounter + 1, s.hasJ, s.recomputes, s.samples + 1⟩

/-- n control ticks from the initial state. -/
def control_run (period : ℕ) : ℕ → LoopState
  | 0 => init_state
  | n + 1 => control_tick period (control_run period n)

/-- C2 as stated is false on the code: in a 20-tick run with refresh
period 5 the Jacobian is recomputed on tick 5 (counter 5 is a multiple of
5) and reused on tick 6, while the claim says tick 5 reuses and tick 6
recomputes. -/
theorem jacobian_refresh_cex :
    5 ∈ (control_run 5 20).recomputes ∧ 6 ∉ (control_run 5 20).recomputes := by
  decide

/-- C2 (amended): in a 20-tick run with Jacobian refresh period 5, the
Jacobian is recomputed exactly on ticks 1, 5, 10, 15, 20 (the first tick
because no cached Jacobian exists, thereafter whenever the incremented
tick counter is a multiple of 5) and the cached value is reused on every
other tick. -/
theorem jacobian_refresh_schedule :
    (control_run 5 20).recomputes = [1, 5, 10, 15, 20] := by
  decide

/-- Statistics finalization from the summary block of main: average,
minimum and maximum of the recorded dq norms, computed only when at least
one sample exists (the if dq_norms guard), else skipped. -/
def summarize (norms : List ℚ) : Option (ℚ × ℚ × ℚ) :=
  match norms with
  | [] => none
  | h :: t =>
    some ((h :: t).sum / ((h :: t).length : ℚ), t.foldl min h, t.foldl max h)

/-- C10: every completed tick records exactly one dq-norm sample, and the
finalization is guarded, returning nothing on an empty sample list (so a
zero-tick run terminates without division by zero or an empty-sequence
error) and a summary whenever at least one sample exists. -/
theorem stats_guard :
    (∀ period n, (control_run period n).samples = n) ∧
    summarize [] = none ∧
    ∀ l : List ℚ, l ≠ [] → (summarize l).isSome = true := by
  refine ⟨?_, rfl, ?_⟩
  · intro period n
    induction n with
    | zero => rfl
    | succ n ih =>
      rw [control_run, control_tick]
      split <;> simp [ih]
  · intro l hl
    cases l with
    | nil => exact absurd rfl hl
    | cons h t => rfl

/-- Closed instance of stats_guard at the one-sample list. -/
theorem stats_guard_witness :
    ([(1:ℚ)] ≠ []) ∧ (summarize [(1:ℚ)]).isSome = true :=
  ⟨by simp, stats_guard.2.2 [(1:ℚ)] (by simp)⟩

/-- Outcome of the control loop body: normal completion or duration
expiry, a step failure carrying its error, or an external interrupt. -/
inductive LoopOutcome where
  | normal
  | failed (err : ℕ)
  | interrupted
deriving DecidableEq

/-- Residual drain loop of the finally block of main: up to fuel stepping
attempts, stopping at the first failed step; returns the number of
time-advance ticks performed. -/
def drain_steps (stepOk : ℕ → Bool) : ℕ → ℕ → ℕ
  | 0, _ => 0
  | fuel + 1, idx => if stepOk idx then drain_steps stepOk fuel (idx + 1) + 1 else 0

/-- Simulation control state: whether the simulation is running, and the
count of discrete time-advance ticks issued. -/
structure SimCtl where
  running : Bool
  time : ℕ
deriving DecidableEq

/-- Simulation state right after startSimulation succeeds. -/
def start_sim : SimCtl := ⟨true, 0⟩

/-- The try/finally shutdown of main: whatever the loop body outcome
(normal completion, duration expiry, step failure, or interrupt), run at
most five residual stepping ticks (breaking at the first failed step),
then stop the simulation, and pass the body outcome through unchanged. -/
def orchestrate (stepOk : ℕ → Bool) (body : SimCtl → SimCtl × LoopOutcome) :
    SimCtl × LoopOutcome :=
  ⟨⟨false, (body start_sim).1.time + drain_steps stepOk 5 0⟩, (body start_sim).2⟩

lemma drain_steps_le (stepOk : ℕ → Bool) :
    ∀ fuel idx, drain_steps stepOk fuel idx ≤ fuel := by
  intro fuel
  induction fuel with
  | zero => intro idx; exact le_refl 0
  | succ n ih =>
    intro idx
    rw [drain_steps]
    split
    · exact Nat.succ_le_succ (ih (idx + 1))
    · exact Nat.zero_le _

/-- C8: on every exit of the control loop the orchestrator performs at
most 5 residual time-advance ticks, leaves the simulation stopped, and
hands the body outcome (in particular a step-failure error) to the caller
intact. -/
theorem shutdown_guarantee (stepOk : ℕ → Bool)
    (body : SimCtl → SimCtl × LoopOutcome) :
    (orchestrate stepOk body).1.running = false ∧
    (orchestrate stepOk body).1.time ≤ (body start_sim).1.time + 5 ∧
    (orchestrate stepOk body).2 = (body start_sim).2 := by
  exact ⟨rfl, Nat.add_le_add_left (drain_steps_le stepOk 5 0) _, rfl⟩
